import Mathlib

/-
Shallow embedding of the two pull-based reward-distribution classes of the
repository:

* `pallets/rewards/deferred_rewards_example.py` — "Constant Time Deferred
  Reward Distribution with Changing Stake Sizes and Deferred Reward"
  (Policy A), embedded in namespace `Deferred`;
* `pallets/rewards/gap_rewards_example.py` — "Constant Time Reward
  Distribution with Changing Stake Sizes and Required Gap" (Policy B),
  embedded in namespace `Gap`.

Modelling choices:

* Amounts, rates and rewards are rationals: every arithmetic operation the
  Python code performs is field arithmetic (`+`, `-`, `*`, `/`, `min`,
  `max`), so over the exact numbers the reference works with, ℚ is the
  faithful carrier.
* Python `raise` and `KeyError` are modelled with `Except`.  A raised
  exception does not roll back mutations already performed on the object,
  so errors escaping a mutating method carry the state of the object at
  the moment the exception propagates.
* The per-account dicts (`stake`, `reward_tally`, `rewarded_stake`,
  `pending_stake`, `distribution_id`) are created in `__init__` with
  exactly the keys `0x1` and `0x2`, and no method ever inserts another
  key into them; their key set is therefore the constant `isAccount` and
  they are embedded as total functions guarded by that key-set test at
  each first dict access.  Policy B's `reward_per_token_history` starts
  empty and grows, so it is embedded as `Nat → Option ℚ`.
-/

/-- Pointwise update of an embedded `dict` with rational values. -/
def fset (f : Nat → ℚ) (a : Nat) (v : ℚ) : Nat → ℚ :=
  fun x => if x = a then v else f x

/-- Pointwise update of an embedded `dict` with natural-number values. -/
def nset (f : Nat → Nat) (a : Nat) (v : Nat) : Nat → Nat :=
  fun x => if x = a then v else f x

/-- Pointwise insertion into an embedded growing `dict` (`Nat → Option ℚ`). -/
def oset (f : Nat → Option ℚ) (k : Nat) (v : ℚ) : Nat → Option ℚ :=
  fun x => if x = k then some v else f x

/-- The exceptions raised by the two classes: `KeyError` from a `dict`
lookup on an absent key, and the two explicit `raise Exception(...)`
statements (insufficient staked amount; distribution on an empty pool). -/
inductive Err where
  | keyError
  | insufficientStake
  | emptyPool
deriving DecidableEq

/-- The key set of the per-account dicts: they are initialised in
`__init__` with exactly the keys `0x1` and `0x2` and never gain keys. -/
def isAccount (a : Nat) : Prop := a = 1 ∨ a = 2

instance (a : Nat) : Decidable (isAccount a) := by
  unfold isAccount; infer_instance

/-- The state of the Python object after a call that returns no value:
on success the new state, on an escaping exception the state at the moment
the exception propagated (Python does not roll back). -/
def outcome {σ : Type} : Except (Err × σ) σ → σ
  | .ok s => s
  | .error (_, s) => s

/-- The state of the Python object after a call that returns a value. -/
def outcomeR {σ ρ : Type} : Except (Err × σ) (ρ × σ) → σ
  | .ok (_, s) => s
  | .error (_, s) => s

namespace Deferred

/-- The fields of `PullBasedDistribution.__init__` in
`deferred_rewards_example.py` (Policy A). -/
structure State where
  total_stake : ℚ
  reward_per_token : ℚ
  last_rate : ℚ
  lost_reward : ℚ
  current_distribution_id : Nat
  stake : Nat → ℚ
  reward_tally : Nat → ℚ
  rewarded_stake : Nat → ℚ
  distribution_id : Nat → Nat

/-- The freshly constructed object: every pool field is zero and the two
pre-created account records hold all zeroes. -/
def init : State where
  total_stake := 0
  reward_per_token := 0
  last_rate := 0
  lost_reward := 0
  current_distribution_id := 0
  stake := fun _ => 0
  reward_tally := fun _ => 0
  rewarded_stake := fun _ => 0
  distribution_id := fun _ => 0

/-- `__update_rewarded_stake(address)`: ensure `rewarded_stake` contains
the last rewarded stake.  Pure: its dict accesses are covered by the
`isAccount` guard performed at each public entry point. -/
def update_rewarded_stake (s : State) (address : Nat) : State :=
  if s.distribution_id address ≠ s.current_distribution_id then
    { s with
      distribution_id := nset s.distribution_id address s.current_distribution_id,
      rewarded_stake := fset s.rewarded_stake address (s.stake address) }
  else s

/-- `distribute(reward)`: distribute `reward` proportionally to active
stakes; raises on a pool with `total_stake == 0`. -/
def distribute (s : State) (reward : ℚ) : Except (Err × State) State :=
  if s.total_stake = 0 then .error (.emptyPool, s)
  else
    let last_rate := (reward + s.lost_reward) / s.total_stake
    .ok { s with
          last_rate := last_rate,
          reward_per_token := s.reward_per_token + last_rate,
          lost_reward := 0,
          current_distribution_id := s.current_distribution_id + 1 }

/-- `deposit_stake(address, amount)`: increase the stake of `address` by
`amount`; `KeyError` on an address outside the dicts. -/
def deposit_stake (s : State) (address : Nat) (amount : ℚ) :
    Except (Err × State) State :=
  if isAccount address then
    let t := update_rewarded_stake s address
    .ok { t with
          stake := fset t.stake address (t.stake address + amount),
          reward_tally := fset t.reward_tally address
            (t.reward_tally address + t.reward_per_token * amount),
          total_stake := t.total_stake + amount }
  else .error (.keyError, s)

/-- `withdraw_stake(address, amount)`: decrease the stake of `address` by
`amount`.  The staked-amount check is the first statement, before any
mutation; the `KeyError` branch models the dict lookup that check makes. -/
def withdraw_stake (s : State) (address : Nat) (amount : ℚ) :
    Except (Err × State) State :=
  if isAccount address then
    if amount > s.stake address then .error (.insufficientStake, s)
    else
      let t := update_rewarded_stake s address
      let unrewarded_stake := max (t.stake address - t.rewarded_stake address) 0
      let unrewarded_amount := min amount unrewarded_stake
      let rewarded_amount := amount - unrewarded_amount
      let lost_reward := rewarded_amount * t.last_rate
      .ok { t with
            stake := fset t.stake address (t.stake address - amount),
            reward_tally := fset t.reward_tally address
              (t.reward_tally address - (t.reward_per_token * amount - lost_reward)),
            total_stake := t.total_stake - amount,
            rewarded_stake := fset t.rewarded_stake address
              (t.rewarded_stake address - rewarded_amount),
            lost_reward := t.lost_reward + lost_reward }
  else .error (.keyError, s)

/-- `compute_reward(address)`: compute the reward of `address`; immutable. -/
def compute_reward (s : State) (address : Nat) : Except Err ℚ :=
  if isAccount address then
    let previous_stake :=
      if s.distribution_id address ≠ s.current_distribution_id then s.stake address
      else s.rewarded_stake address
    .ok (s.stake address * s.reward_per_token
         - s.reward_tally address
         - previous_stake * s.last_rate)
  else .error .keyError

/-- `withdraw_reward(address)`: withdraw rewards of `address`; returns the
computed reward and adds it to the tally. -/
def withdraw_reward (s : State) (address : Nat) :
    Except (Err × State) (ℚ × State) :=
  match compute_reward s address with
  | .error e => .error (e, s)
  | .ok reward =>
      .ok (reward,
           { s with
             reward_tally :=
               fset s.reward_tally address (s.reward_tally address + reward) })

/-- States reachable from the freshly constructed object by finite
sequences of the four mutating calls with non-negative amounts; a call
whose exception escapes leaves the object in the carried state, so both
outcomes of every call are included. -/
inductive Reach : State → Prop where
  | init : Reach init
  | distribute {s : State} (reward : ℚ) :
      Reach s → 0 ≤ reward → Reach (outcome (distribute s reward))
  | deposit {s : State} (address : Nat) (amount : ℚ) :
      Reach s → 0 ≤ amount → Reach (outcome (deposit_stake s address amount))
  | withdraw {s : State} (address : Nat) (amount : ℚ) :
      Reach s → 0 ≤ amount → Reach (outcome (withdraw_stake s address amount))
  | reward {s : State} (address : Nat) :
      Reach s → Reach (outcomeR (withdraw_reward s address))

/-- The `previous_stake` value `compute_reward` uses for an account. -/
def previousStake (s : State) (a : Nat) : ℚ :=
  if s.distribution_id a ≠ s.current_distribution_id then s.stake a
  else s.rewarded_stake a

/-- The value `compute_reward` returns for an account in the dicts. -/
def rewardVal (s : State) (a : Nat) : ℚ :=
  s.stake a * s.reward_per_token - s.reward_tally a
    - previousStake s a * s.last_rate

/-- The sum of `stake` over the settled accounts (the accounts whose
`distribution_id` equals the pool's `current_distribution_id`). -/
def settledStakeSum (s : State) : ℚ :=
  (if s.distribution_id 1 = s.current_distribution_id then s.stake 1 else 0)
    + (if s.distribution_id 2 = s.current_distribution_id then s.stake 2 else 0)

/-- Inductive invariant of Policy A, containing everything the claims
need about reachable states. -/
structure Inv (s : State) : Prop where
  stake_nonneg : ∀ a, 0 ≤ s.stake a
  rate_nonneg : 0 ≤ s.last_rate
  lost_nonneg : 0 ≤ s.lost_reward
  did_le : ∀ a, s.distribution_id a ≤ s.current_distribution_id
  total_eq : s.total_stake = s.stake 1 + s.stake 2
  prev_nonneg : ∀ a, 0 ≤ previousStake s a
  prev_le : ∀ a, previousStake s a ≤ s.stake a
  reward_nonneg : ∀ a, 0 ≤ rewardVal s a

end Deferred

namespace Gap

/-- The fields of `PullBasedDistribution.__init__` in
`gap_rewards_example.py` (Policy B). -/
structure State where
  total_stake : ℚ
  total_pending_stake : ℚ
  reward_per_token : ℚ
  reward_per_token_history : Nat → Option ℚ
  current_distribution_id : Nat
  stake : Nat → ℚ
  reward_tally : Nat → ℚ
  pending_stake : Nat → ℚ
  distribution_id : Nat → Nat

/-- The freshly constructed object: pool fields zero, the history dict
empty, and the two pre-created account records all zeroes. -/
def init : State where
  total_stake := 0
  total_pending_stake := 0
  reward_per_token := 0
  reward_per_token_history := fun _ => none
  current_distribution_id := 0
  stake := fun _ => 0
  reward_tally := fun _ => 0
  pending_stake := fun _ => 0
  distribution_id := fun _ => 0

/-- `__update_state(address)`: ensure a valid state for the account before
using it.  The first dict access (`distribution_id[address]`) raises
`KeyError` on an unknown address; in the stale branch the statement
mutating `stake` runs before the history lookup, so a missing history
entry leaves `stake` already updated when the `KeyError` escapes. -/
def update_state (s : State) (address : Nat) : Except (Err × State) State :=
  if isAccount address then
    if s.distribution_id address ≠ s.current_distribution_id then
      let s₁ :=
        { s with
          stake :=
            fset s.stake address (s.stake address + s.pending_stake address) }
      match s.reward_per_token_history (s.distribution_id address) with
      | none => .error (.keyError, s₁)
      | some h =>
          .ok { s₁ with
                reward_tally :=
                  fset s₁.reward_tally address
                    (s₁.reward_tally address + s.pending_stake address * h),
                distribution_id :=
                  nset s₁.distribution_id address s.current_distribution_id,
                pending_stake := fset s₁.pending_stake address 0 }
    else .ok s
  else .error (.keyError, s)

/-- `distribute(reward)`: distribute `reward` proportionally to active
stakes.  Never raises: with `total_stake == 0` the rate increment is
skipped, the current `reward_per_token` is recorded in the history under
the pre-advance id, the epoch advances, and pending stake is folded in. -/
def distribute (s : State) (reward : ℚ) : State :=
  let s₁ :=
    if 0 < s.total_stake then
      { s with reward_per_token := s.reward_per_token + reward / s.total_stake }
    else s
  let prev_distribution_id := s₁.current_distribution_id
  { s₁ with
    reward_per_token_history :=
      oset s₁.reward_per_token_history prev_distribution_id s₁.reward_per_token,
    current_distribution_id := s₁.current_distribution_id + 1,
    total_stake := s₁.total_stake + s₁.total_pending_stake,
    total_pending_stake := 0 }

/-- `deposit_stake(address, amount)`: increase the stake of `address` by
`amount`, into the pending buckets. -/
def deposit_stake (s : State) (address : Nat) (amount : ℚ) :
    Except (Err × State) State :=
  match update_state s address with
  | .error e => .error e
  | .ok t =>
      .ok { t with
            pending_stake :=
              fset t.pending_stake address (t.pending_stake address + amount),
            total_pending_stake := t.total_pending_stake + amount }

/-- `withdraw_stake(address, amount)`: decrease the stake of `address` by
`amount`.  The staked-amount check is the first statement (its dict
lookups model the `KeyError` on an unknown address), before any mutation;
pending stake is drawn first, then settled stake. -/
def withdraw_stake (s : State) (address : Nat) (amount : ℚ) :
    Except (Err × State) State :=
  if isAccount address then
    if amount > s.stake address + s.pending_stake address then
      .error (.insufficientStake, s)
    else
      match update_state s address with
      | .error e => .error e
      | .ok t =>
          let pending_amount := min amount (t.pending_stake address)
          let t₁ :=
            { t with
              pending_stake :=
                fset t.pending_stake address (t.pending_stake address - pending_amount),
              total_pending_stake := t.total_pending_stake - pending_amount }
          let computed_amount := amount - pending_amount
          .ok { t₁ with
                stake :=
                  fset t₁.stake address (t₁.stake address - computed_amount),
                reward_tally :=
                  fset t₁.reward_tally address
                    (t₁.reward_tally address - t₁.reward_per_token * computed_amount),
                total_stake := t₁.total_stake - computed_amount }
  else .error (.keyError, s)

/-- `compute_reward(address)`: compute the reward of `address`; immutable.
A stale account is read as if settled, crediting pending stake at the
historical rate of its recorded epoch. -/
def compute_reward (s : State) (address : Nat) : Except Err ℚ :=
  if isAccount address then
    if s.distribution_id address ≠ s.current_distribution_id then
      match s.reward_per_token_history (s.distribution_id address) with
      | none => .error .keyError
      | some h =>
          .ok ((s.stake address + s.pending_stake address) * s.reward_per_token
               - (s.reward_tally address + s.pending_stake address * h))
    else .ok (s.stake address * s.reward_per_token - s.reward_tally address)
  else .error .keyError

/-- `withdraw_reward(address)`: settle the account, return its reward and
mark it paid by setting the tally to `stake * reward_per_token`. -/
def withdraw_reward (s : State) (address : Nat) :
    Except (Err × State) (ℚ × State) :=
  match update_state s address with
  | .error e => .error e
  | .ok t =>
      match compute_reward t address with
      | .error e => .error (e, t)
      | .ok reward =>
          .ok (reward,
               { t with
                 reward_tally :=
                   fset t.reward_tally address
                     (t.stake address * t.reward_per_token) })

/-- States reachable from the freshly constructed object by finite
sequences of the four mutating calls with non-negative amounts; a call
whose exception escapes leaves the object in the carried state, so both
outcomes of every call are included (`distribute` never raises here). -/
inductive Reach : State → Prop where
  | init : Reach init
  | distribute {s : State} (reward : ℚ) :
      Reach s → 0 ≤ reward → Reach (distribute s reward)
  | deposit {s : State} (address : Nat) (amount : ℚ) :
      Reach s → 0 ≤ amount → Reach (outcome (deposit_stake s address amount))
  | withdraw {s : State} (address : Nat) (amount : ℚ) :
      Reach s → 0 ≤ amount → Reach (outcome (withdraw_stake s address amount))
  | reward {s : State} (address : Nat) :
      Reach s → Reach (outcomeR (withdraw_reward s address))

/-- The state `__update_state` produces on success, written as a pure
function; a missing history entry is read as `0` (the case never arises
when the invariant guarantees the entry exists). -/
def settled (s : State) (a : Nat) : State :=
  if s.distribution_id a ≠ s.current_distribution_id then
    { s with
      stake := fset s.stake a (s.stake a + s.pending_stake a),
      reward_tally :=
        fset s.reward_tally a
          (s.reward_tally a + s.pending_stake a
            * ((s.reward_per_token_history (s.distribution_id a)).getD 0)),
      distribution_id := nset s.distribution_id a s.current_distribution_id,
      pending_stake := fset s.pending_stake a 0 }
  else s

/-- The stake of an account that counts toward `total_stake`: its settled
stake, plus its pending stake once a distribution has passed (because the
next settlement will fold that pending stake in). -/
def effActive (s : State) (a : Nat) : ℚ :=
  s.stake a
    + (if s.distribution_id a = s.current_distribution_id then 0
       else s.pending_stake a)

/-- The pending stake of an account that counts toward
`total_pending_stake`: only accounts settled at the current epoch hold
pending stake there. -/
def pendingPart (s : State) (a : Nat) : ℚ :=
  if s.distribution_id a = s.current_distribution_id then s.pending_stake a
  else 0

/-- Inductive invariant of Policy B, containing everything the claims
need about reachable states. -/
structure Inv (s : State) : Prop where
  stake_nonneg : ∀ a, 0 ≤ s.stake a
  pending_nonneg : ∀ a, 0 ≤ s.pending_stake a
  did_le : ∀ a, s.distribution_id a ≤ s.current_distribution_id
  hist_dom : ∀ k, k < s.current_distribution_id →
    (s.reward_per_token_history k).isSome
  hist_le : ∀ k q, s.reward_per_token_history k = some q →
    q ≤ s.reward_per_token
  tally_le : ∀ a, s.reward_tally a ≤ s.stake a * s.reward_per_token
  total_eq : s.total_stake = effActive s 1 + effActive s 2
  pending_eq : s.total_pending_stake = pendingPart s 1 + pendingPart s 2

end Gap

namespace Deferred

theorem compute_reward_eq {s : State} {a : Nat} (h : isAccount a) :
    compute_reward s a = .ok (rewardVal s a) := by
  simp [compute_reward, rewardVal, previousStake, h]

theorem compute_reward_not {s : State} {a : Nat} (h : ¬ isAccount a) :
    compute_reward s a = .error .keyError := by
  simp [compute_reward, h]

theorem prev_settled {s : State} {a : Nat}
    (h : s.distribution_id a = s.current_distribution_id) :
    previousStake s a = s.rewarded_stake a := by
  simp [previousStake, h]

theorem prev_stale {s : State} {a : Nat}
    (h : s.distribution_id a ≠ s.current_distribution_id) :
    previousStake s a = s.stake a := by
  simp [previousStake, h]

theorem urs_stake (s : State) (a : Nat) :
    (update_rewarded_stake s a).stake = s.stake := by
  unfold update_rewarded_stake; split <;> rfl

theorem urs_tally (s : State) (a : Nat) :
    (update_rewarded_stake s a).reward_tally = s.reward_tally := by
  unfold update_rewarded_stake; split <;> rfl

theorem urs_rpt (s : State) (a : Nat) :
    (update_rewarded_stake s a).reward_per_token = s.reward_per_token := by
  unfold update_rewarded_stake; split <;> rfl

theorem urs_rate (s : State) (a : Nat) :
    (update_rewarded_stake s a).last_rate = s.last_rate := by
  unfold update_rewarded_stake; split <;> rfl

theorem urs_lost (s : State) (a : Nat) :
    (update_rewarded_stake s a).lost_reward = s.lost_reward := by
  unfold update_rewarded_stake; split <;> rfl

theorem urs_total (s : State) (a : Nat) :
    (update_rewarded_stake s a).total_stake = s.total_stake := by
  unfold update_rewarded_stake; split <;> rfl

theorem urs_cdi (s : State) (a : Nat) :
    (update_rewarded_stake s a).current_distribution_id
      = s.current_distribution_id := by
  unfold update_rewarded_stake; split <;> rfl

theorem urs_did_self (s : State) (a : Nat) :
    (update_rewarded_stake s a).distribution_id a
      = s.current_distribution_id := by
  unfold update_rewarded_stake
  split
  · simp [nset]
  · next h => exact not_ne_iff.mp h

theorem urs_did_other (s : State) {a x : Nat} (hx : x ≠ a) :
    (update_rewarded_stake s a).distribution_id x = s.distribution_id x := by
  unfold update_rewarded_stake; split
  · simp [nset, hx]
  · rfl

theorem urs_rw_other (s : State) {a x : Nat} (hx : x ≠ a) :
    (update_rewarded_stake s a).rewarded_stake x = s.rewarded_stake x := by
  unfold update_rewarded_stake; split
  · simp [fset, hx]
  · rfl

theorem urs_rw_self (s : State) (a : Nat) :
    (update_rewarded_stake s a).rewarded_stake a = previousStake s a := by
  unfold update_rewarded_stake previousStake
  split
  · next h => simp [fset, h]
  · next h => simp [h]

theorem urs_prev (s : State) (a x : Nat) :
    previousStake (update_rewarded_stake s a) x = previousStake s x := by
  by_cases hx : x = a
  · subst hx
    have hs : (update_rewarded_stake s x).distribution_id x
        = (update_rewarded_stake s x).current_distribution_id := by
      rw [urs_did_self, urs_cdi]
    rw [prev_settled hs, urs_rw_self]
  · unfold previousStake
    rw [urs_cdi, urs_did_other s hx, urs_stake, urs_rw_other s hx]

theorem urs_rewardVal (s : State) (a x : Nat) :
    rewardVal (update_rewarded_stake s a) x = rewardVal s x := by
  unfold rewardVal
  rw [urs_stake, urs_rpt, urs_tally, urs_prev, urs_rate]

theorem inv_urs {s : State} (h : Inv s) (a : Nat) :
    Inv (update_rewarded_stake s a) := by
  refine ⟨?_, ?_, ?_, ?_, ?_, ?_, ?_, ?_⟩
  · intro x; rw [urs_stake]; exact h.stake_nonneg x
  · rw [urs_rate]; exact h.rate_nonneg
  · rw [urs_lost]; exact h.lost_nonneg
  · intro x
    rw [urs_cdi]
    by_cases hx : x = a
    · subst hx; rw [urs_did_self]
    · rw [urs_did_other s hx]; exact h.did_le x
  · rw [urs_total, urs_stake]; exact h.total_eq
  · intro x; rw [urs_prev]; exact h.prev_nonneg x
  · intro x; rw [urs_prev, urs_stake]; exact h.prev_le x
  · intro x; rw [urs_rewardVal]; exact h.reward_nonneg x

theorem inv_init : Inv init := by
  refine ⟨?_, ?_, ?_, ?_, ?_, ?_, ?_, ?_⟩ <;>
    simp [init, previousStake, rewardVal]

end Deferred

namespace Deferred

theorem distribute_err {s : State} (h : s.total_stake = 0) (reward : ℚ) :
    distribute s reward = .error (.emptyPool, s) := by
  simp [distribute, h]

theorem distribute_ok {s : State} (h : ¬ s.total_stake = 0) (reward : ℚ) :
    distribute s reward =
      .ok { s with
            last_rate := (reward + s.lost_reward) / s.total_stake,
            reward_per_token :=
              s.reward_per_token + (reward + s.lost_reward) / s.total_stake,
            lost_reward := 0,
            current_distribution_id := s.current_distribution_id + 1 } := by
  simp [distribute, h]

theorem inv_distribute_aux {s s' : State} (h : Inv s)
    (hst : s'.stake = s.stake)
    (htl : s'.reward_tally = s.reward_tally)
    (hrw : s'.rewarded_stake = s.rewarded_stake)
    (hdid : s'.distribution_id = s.distribution_id)
    (hcdi : s'.current_distribution_id = s.current_distribution_id + 1)
    (hrpt : s'.reward_per_token = s.reward_per_token + s'.last_rate)
    (hlr : 0 ≤ s'.last_rate)
    (hlost : s'.lost_reward = 0)
    (htot : s'.total_stake = s.total_stake) : Inv s' := by
  have hp : ∀ x, previousStake s' x = s.stake x := by
    intro x
    have hxx : s.distribution_id x ≠ s.current_distribution_id + 1 := by
      have := h.did_le x; omega
    unfold previousStake
    rw [hdid, hcdi, hst]
    simp [hxx]
  refine ⟨?_, ?_, ?_, ?_, ?_, ?_, ?_, ?_⟩
  · intro x; rw [hst]; exact h.stake_nonneg x
  · exact hlr
  · rw [hlost]
  · intro x; rw [hdid, hcdi]; exact le_trans (h.did_le x) (Nat.le_succ _)
  · rw [htot, hst]; exact h.total_eq
  · intro x; rw [hp]; exact h.stake_nonneg x
  · intro x; rw [hp, hst]
  · intro x
    have hv : rewardVal s' x
        = rewardVal s x + previousStake s x * s.last_rate := by
      unfold rewardVal
      rw [hp, hrpt, hst, htl]
      ring
    rw [hv]
    exact add_nonneg (h.reward_nonneg x)
      (mul_nonneg (h.prev_nonneg x) h.rate_nonneg)

theorem inv_distribute {s : State} (h : Inv s) {reward : ℚ} (hr : 0 ≤ reward) :
    Inv (outcome (distribute s reward)) := by
  by_cases h0 : s.total_stake = 0
  · rw [distribute_err h0]; exact h
  · rw [distribute_ok h0]
    have htot0 : 0 ≤ s.total_stake := by
      rw [h.total_eq]; exact add_nonneg (h.stake_nonneg 1) (h.stake_nonneg 2)
    exact inv_distribute_aux h rfl rfl rfl rfl rfl rfl
      (div_nonneg (add_nonneg hr h.lost_nonneg) htot0) rfl rfl

end Deferred

namespace Deferred

theorem inv_deposit_aux {t s' : State} (h : Inv t) {a : Nat} {q : ℚ}
    (hq : 0 ≤ q) (ha : isAccount a)
    (hsettled : t.distribution_id a = t.current_distribution_id)
    (hst : s'.stake = fset t.stake a (t.stake a + q))
    (htl : s'.reward_tally
      = fset t.reward_tally a (t.reward_tally a + t.reward_per_token * q))
    (htot : s'.total_stake = t.total_stake + q)
    (hrw : s'.rewarded_stake = t.rewarded_stake)
    (hdid : s'.distribution_id = t.distribution_id)
    (hcdi : s'.current_distribution_id = t.current_distribution_id)
    (hrpt : s'.reward_per_token = t.reward_per_token)
    (hlr : s'.last_rate = t.last_rate)
    (hlost : s'.lost_reward = t.lost_reward) : Inv s' := by
  have hp : ∀ x, previousStake s' x = previousStake t x := by
    intro x
    unfold previousStake
    rw [hdid, hcdi, hrw, hst]
    by_cases hx : x = a
    · subst hx; simp [hsettled]
    · by_cases hd : t.distribution_id x ≠ t.current_distribution_id
      · simp [hd, fset, hx]
      · simp [hd]
  refine ⟨?_, ?_, ?_, ?_, ?_, ?_, ?_, ?_⟩
  · intro x; rw [hst]
    by_cases hx : x = a
    · subst hx
      simpa [fset] using add_nonneg (h.stake_nonneg x) hq
    · simp only [fset, if_neg hx]; exact h.stake_nonneg x
  · rw [hlr]; exact h.rate_nonneg
  · rw [hlost]; exact h.lost_nonneg
  · intro x; rw [hdid, hcdi]; exact h.did_le x
  · rw [htot, hst, h.total_eq]
    rcases ha with h1 | h1 <;> subst h1 <;> simp [fset] <;> ring
  · intro x; rw [hp]; exact h.prev_nonneg x
  · intro x; rw [hp, hst]
    by_cases hx : x = a
    · subst hx; simp only [fset, if_pos rfl]
      simp only [if_true]
      exact le_trans (h.prev_le x) (by linarith)
    · simp only [fset, if_neg hx]; exact h.prev_le x
  · intro x
    have hv : rewardVal s' x = rewardVal t x := by
      unfold rewardVal
      rw [hp, hrpt, hlr, hst, htl]
      by_cases hx : x = a
      · subst hx; simp [fset]; ring
      · simp only [fset, if_neg hx]
    rw [hv]; exact h.reward_nonneg x

theorem inv_deposit {s : State} (h : Inv s) (a : Nat) {q : ℚ} (hq : 0 ≤ q) :
    Inv (outcome (deposit_stake s a q)) := by
  by_cases ha : isAccount a
  · unfold deposit_stake
    rw [if_pos ha]
    exact inv_deposit_aux (inv_urs h a) hq ha
      (by rw [urs_did_self, urs_cdi]) rfl rfl rfl rfl rfl rfl rfl rfl rfl
  · unfold deposit_stake
    rw [if_neg ha]
    exact h

end Deferred

namespace Deferred

theorem inv_withdraw_aux {t s' : State} (h : Inv t) {a : Nat} {q : ℚ}
    (hq : 0 ≤ q) (ha : isAccount a)
    (hsettled : t.distribution_id a = t.current_distribution_id)
    (hqle : q ≤ t.stake a)
    (hst : s'.stake = fset t.stake a (t.stake a - q))
    (htl : s'.reward_tally = fset t.reward_tally a
      (t.reward_tally a - (t.reward_per_token * q
        - (q - min q (max (t.stake a - t.rewarded_stake a) 0)) * t.last_rate)))
    (htot : s'.total_stake = t.total_stake - q)
    (hrw : s'.rewarded_stake = fset t.rewarded_stake a
      (t.rewarded_stake a - (q - min q (max (t.stake a - t.rewarded_stake a) 0))))
    (hlost : s'.lost_reward = t.lost_reward
      + (q - min q (max (t.stake a - t.rewarded_stake a) 0)) * t.last_rate)
    (hdid : s'.distribution_id = t.distribution_id)
    (hcdi : s'.current_distribution_id = t.current_distribution_id)
    (hrpt : s'.reward_per_token = t.reward_per_token)
    (hlr : s'.last_rate = t.last_rate) : Inv s' := by
  have hrw0 : 0 ≤ t.rewarded_stake a := by
    rw [← prev_settled hsettled]; exact h.prev_nonneg a
  have hrwle : t.rewarded_stake a ≤ t.stake a := by
    rw [← prev_settled hsettled]; exact h.prev_le a
  have hmax : max (t.stake a - t.rewarded_stake a) 0
      = t.stake a - t.rewarded_stake a := max_eq_left (by linarith)
  have hra0 : 0 ≤ q - min q (max (t.stake a - t.rewarded_stake a) 0) := by
    have := min_le_left q (max (t.stake a - t.rewarded_stake a) 0)
    linarith
  have hra_le : q - min q (max (t.stake a - t.rewarded_stake a) 0)
      ≤ t.rewarded_stake a := by
    rw [hmax]
    rcases le_total q (t.stake a - t.rewarded_stake a) with hc | hc
    · rw [min_eq_left hc]; linarith
    · rw [min_eq_right hc]; linarith
  have hq_sub : q - (q - min q (max (t.stake a - t.rewarded_stake a) 0))
      ≤ t.stake a - t.rewarded_stake a := by
    have hmr := min_le_right q (max (t.stake a - t.rewarded_stake a) 0)
    rw [hmax] at hmr
    rw [hmax]
    linarith
  have hp : ∀ x, x ≠ a → previousStake s' x = previousStake t x := by
    intro x hx
    unfold previousStake
    rw [hdid, hcdi, hrw, hst]
    by_cases hd : t.distribution_id x ≠ t.current_distribution_id
    · simp [hd, fset, hx]
    · simp [hd, fset, hx]
  have hpa : previousStake s' a
      = t.rewarded_stake a
        - (q - min q (max (t.stake a - t.rewarded_stake a) 0)) := by
    have hset2 : s'.distribution_id a = s'.current_distribution_id := by
      rw [hdid, hcdi]; exact hsettled
    rw [prev_settled hset2, hrw]
    simp [fset]
  refine ⟨?_, ?_, ?_, ?_, ?_, ?_, ?_, ?_⟩
  · intro x; rw [hst]
    by_cases hx : x = a
    · subst hx; simp [fset]; linarith
    · simp only [fset, if_neg hx]; exact h.stake_nonneg x
  · rw [hlr]; exact h.rate_nonneg
  · rw [hlost]
    exact add_nonneg h.lost_nonneg (mul_nonneg hra0 h.rate_nonneg)
  · intro x; rw [hdid, hcdi]; exact h.did_le x
  · rw [htot, hst, h.total_eq]
    rcases ha with h1 | h1 <;> subst h1 <;> simp [fset] <;> ring
  · intro x
    by_cases hx : x = a
    · subst hx; rw [hpa]; linarith
    · rw [hp x hx]; exact h.prev_nonneg x
  · intro x
    by_cases hx : x = a
    · subst hx; rw [hpa, hst]
      simp only [fset, if_pos rfl]
      simp only [if_true]
      linarith
    · rw [hp x hx, hst]
      simp only [fset, if_neg hx]
      exact h.prev_le x
  · intro x
    by_cases hx : x = a
    · subst hx
      have hv : rewardVal s' x = rewardVal t x := by
        unfold rewardVal
        rw [hpa, hrpt, hlr, hst, htl, prev_settled hsettled]
        simp [fset]
        ring
      rw [hv]; exact h.reward_nonneg x
    · have hv : rewardVal s' x = rewardVal t x := by
        unfold rewardVal
        rw [hp x hx, hrpt, hlr, hst, htl]
        simp only [fset, if_neg hx]
      rw [hv]; exact h.reward_nonneg x

theorem inv_withdraw {s : State} (h : Inv s) (a : Nat) {q : ℚ} (hq : 0 ≤ q) :
    Inv (outcome (withdraw_stake s a q)) := by
  by_cases ha : isAccount a
  · unfold withdraw_stake
    rw [if_pos ha]
    by_cases hgt : q > s.stake a
    · rw [if_pos hgt]; exact h
    · rw [if_neg hgt]
      have hqle : q ≤ (update_rewarded_stake s a).stake a := by
        rw [urs_stake]; exact not_lt.mp hgt
      exact inv_withdraw_aux (inv_urs h a) hq ha
        (by rw [urs_did_self, urs_cdi]) hqle rfl rfl rfl rfl rfl rfl rfl rfl rfl
  · unfold withdraw_stake
    rw [if_neg ha]
    exact h

end Deferred

namespace Deferred

theorem withdraw_reward_ok {s : State} {a : Nat} (ha : isAccount a) :
    withdraw_reward s a =
      .ok (rewardVal s a,
           { s with
             reward_tally :=
               fset s.reward_tally a (s.reward_tally a + rewardVal s a) }) := by
  unfold withdraw_reward
  rw [compute_reward_eq ha]

theorem withdraw_reward_err {s : State} {a : Nat} (ha : ¬ isAccount a) :
    withdraw_reward s a = .error (.keyError, s) := by
  unfold withdraw_reward
  rw [compute_reward_not ha]

theorem inv_withdraw_reward_aux {s s' : State} (h : Inv s) {a : Nat}
    (htl : s'.reward_tally
      = fset s.reward_tally a (s.reward_tally a + rewardVal s a))
    (hst : s'.stake = s.stake)
    (hrw : s'.rewarded_stake = s.rewarded_stake)
    (hdid : s'.distribution_id = s.distribution_id)
    (hcdi : s'.current_distribution_id = s.current_distribution_id)
    (hrpt : s'.reward_per_token = s.reward_per_token)
    (hlr : s'.last_rate = s.last_rate)
    (hlost : s'.lost_reward = s.lost_reward)
    (htot : s'.total_stake = s.total_stake) : Inv s' := by
  have hp : ∀ x, previousStake s' x = previousStake s x := by
    intro x
    unfold previousStake
    rw [hdid, hcdi, hrw, hst]
  refine ⟨?_, ?_, ?_, ?_, ?_, ?_, ?_, ?_⟩
  · intro x; rw [hst]; exact h.stake_nonneg x
  · rw [hlr]; exact h.rate_nonneg
  · rw [hlost]; exact h.lost_nonneg
  · intro x; rw [hdid, hcdi]; exact h.did_le x
  · rw [htot, hst]; exact h.total_eq
  · intro x; rw [hp]; exact h.prev_nonneg x
  · intro x; rw [hp, hst]; exact h.prev_le x
  · intro x
    by_cases hx : x = a
    · subst hx
      have hv : rewardVal s' x = 0 := by
        unfold rewardVal
        rw [hp, hrpt, hlr, hst, htl]
        simp [fset]
        unfold rewardVal
        ring
      rw [hv]
    · have hv : rewardVal s' x = rewardVal s x := by
        unfold rewardVal
        rw [hp, hrpt, hlr, hst, htl]
        simp only [fset, if_neg hx]
      rw [hv]; exact h.reward_nonneg x

theorem inv_withdraw_reward {s : State} (h : Inv s) (a : Nat) :
    Inv (outcomeR (withdraw_reward s a)) := by
  by_cases ha : isAccount a
  · rw [withdraw_reward_ok ha]
    exact inv_withdraw_reward_aux h rfl rfl rfl rfl rfl rfl rfl rfl rfl
  · rw [withdraw_reward_err ha]
    exact h

/-- Every reachable Policy A state satisfies the inductive invariant. -/
theorem inv_of_reach {s : State} (h : Reach s) : Inv s := by
  induction h with
  | init => exact inv_init
  | distribute reward hR hr ih => exact inv_distribute ih hr
  | deposit address amount hR hq ih => exact inv_deposit ih address hq
  | withdraw address amount hR hq ih => exact inv_withdraw ih address hq
  | reward address hR ih => exact inv_withdraw_reward ih address

end Deferred

namespace Gap

theorem settled_rpt (s : State) (a : Nat) :
    (settled s a).reward_per_token = s.reward_per_token := by
  unfold settled; split <;> rfl

theorem settled_hist (s : State) (a : Nat) :
    (settled s a).reward_per_token_history = s.reward_per_token_history := by
  unfold settled; split <;> rfl

theorem settled_cdi (s : State) (a : Nat) :
    (settled s a).current_distribution_id = s.current_distribution_id := by
  unfold settled; split <;> rfl

theorem settled_total (s : State) (a : Nat) :
    (settled s a).total_stake = s.total_stake := by
  unfold settled; split <;> rfl

theorem settled_tp (s : State) (a : Nat) :
    (settled s a).total_pending_stake = s.total_pending_stake := by
  unfold settled; split <;> rfl

theorem settled_did_self (s : State) (a : Nat) :
    (settled s a).distribution_id a = s.current_distribution_id := by
  unfold settled
  split
  · simp [nset]
  · next h => exact not_ne_iff.mp h

theorem settled_did_other (s : State) {a x : Nat} (hx : x ≠ a) :
    (settled s a).distribution_id x = s.distribution_id x := by
  unfold settled; split
  · simp [nset, hx]
  · rfl

theorem settled_stake_other (s : State) {a x : Nat} (hx : x ≠ a) :
    (settled s a).stake x = s.stake x := by
  unfold settled; split
  · simp [fset, hx]
  · rfl

theorem settled_tally_other (s : State) {a x : Nat} (hx : x ≠ a) :
    (settled s a).reward_tally x = s.reward_tally x := by
  unfold settled; split
  · simp [fset, hx]
  · rfl

theorem settled_pending_other (s : State) {a x : Nat} (hx : x ≠ a) :
    (settled s a).pending_stake x = s.pending_stake x := by
  unfold settled; split
  · simp [fset, hx]
  · rfl

theorem settled_sum_self (s : State) (a : Nat) :
    (settled s a).stake a + (settled s a).pending_stake a
      = s.stake a + s.pending_stake a := by
  unfold settled; split
  · simp [fset]
  · rfl

theorem effActive_settled (s : State) (a x : Nat) :
    effActive (settled s a) x = effActive s x := by
  by_cases hx : x = a
  · subst hx
    unfold effActive
    rw [settled_cdi, settled_did_self]
    unfold settled
    split
    · next h => simp [fset, h]
    · next h =>
        rw [not_ne_iff] at h
        simp [h]
  · unfold effActive
    rw [settled_cdi, settled_did_other s hx, settled_stake_other s hx,
        settled_pending_other s hx]

theorem settled_pending_self (s : State) (a : Nat) :
    (settled s a).pending_stake a
      = if s.distribution_id a = s.current_distribution_id
        then s.pending_stake a else 0 := by
  unfold settled
  split
  · next h => simp [fset, h]
  · next h =>
      rw [not_ne_iff] at h
      simp [h]

theorem pendingPart_settled (s : State) (a x : Nat) :
    pendingPart (settled s a) x = pendingPart s x := by
  by_cases hx : x = a
  · subst hx
    unfold pendingPart
    rw [settled_cdi, settled_did_self, settled_pending_self]
    simp
  · unfold pendingPart
    rw [settled_cdi, settled_did_other s hx, settled_pending_other s hx]

theorem inv_settled {s : State} (h : Inv s) (a : Nat) :
    Inv (settled s a) := by
  refine ⟨?_, ?_, ?_, ?_, ?_, ?_, ?_, ?_⟩
  · intro x
    by_cases hx : x = a
    · subst hx
      unfold settled
      split
      · simpa [fset] using
          add_nonneg (h.stake_nonneg x) (h.pending_nonneg x)
      · exact h.stake_nonneg x
    · rw [settled_stake_other s hx]; exact h.stake_nonneg x
  · intro x
    by_cases hx : x = a
    · subst hx
      unfold settled
      split
      · simp [fset]
      · exact h.pending_nonneg x
    · rw [settled_pending_other s hx]; exact h.pending_nonneg x
  · intro x
    rw [settled_cdi]
    by_cases hx : x = a
    · subst hx; rw [settled_did_self]
    · rw [settled_did_other s hx]; exact h.did_le x
  · intro k hk
    rw [settled_hist]
    rw [settled_cdi] at hk
    exact h.hist_dom k hk
  · intro k v hv
    rw [settled_rpt]
    rw [settled_hist] at hv
    exact h.hist_le k v hv
  · intro x
    by_cases hx : x = a
    · subst hx
      unfold settled
      split
      · next hd =>
          have hlt : s.distribution_id x < s.current_distribution_id :=
            lt_of_le_of_ne (h.did_le x) hd
          obtain ⟨hv, hhv⟩ :=
            Option.isSome_iff_exists.mp (h.hist_dom _ hlt)
          have hvle : hv ≤ s.reward_per_token := h.hist_le _ _ hhv
          have hmul : s.pending_stake x * hv
              ≤ s.pending_stake x * s.reward_per_token :=
            mul_le_mul_of_nonneg_left hvle (h.pending_nonneg x)
          have htl := h.tally_le x
          simp [fset, hhv]
          nlinarith [h.pending_nonneg x]
      · exact h.tally_le x
    · rw [settled_tally_other s hx, settled_stake_other s hx, settled_rpt]
      exact h.tally_le x
  · rw [settled_total, effActive_settled, effActive_settled]
    exact h.total_eq
  · rw [settled_tp, pendingPart_settled, pendingPart_settled]
    exact h.pending_eq

end Gap

namespace Gap

theorem update_state_err {s : State} {a : Nat} (ha : ¬ isAccount a) :
    update_state s a = .error (.keyError, s) := by
  simp [update_state, ha]

theorem update_state_ok {s : State} {a : Nat} (ha : isAccount a)
    (hh : s.distribution_id a ≠ s.current_distribution_id →
      (s.reward_per_token_history (s.distribution_id a)).isSome) :
    update_state s a = .ok (settled s a) := by
  unfold update_state settled
  rw [if_pos ha]
  by_cases hd : s.distribution_id a ≠ s.current_distribution_id
  · rw [if_pos hd, if_pos hd]
    obtain ⟨hv, hhv⟩ := Option.isSome_iff_exists.mp (hh hd)
    rw [hhv]
    simp
  · rw [if_neg hd, if_neg hd]

theorem update_state_ok_of_inv {s : State} (h : Inv s) {a : Nat}
    (ha : isAccount a) : update_state s a = .ok (settled s a) :=
  update_state_ok ha
    (fun hd => h.hist_dom _ (lt_of_le_of_ne (h.did_le a) hd))

theorem compute_reward_settled {s : State} {a : Nat} (ha : isAccount a)
    (hd : s.distribution_id a = s.current_distribution_id) :
    compute_reward s a
      = .ok (s.stake a * s.reward_per_token - s.reward_tally a) := by
  unfold compute_reward
  rw [if_pos ha]
  simp [hd]

theorem compute_reward_notB {s : State} {a : Nat} (ha : ¬ isAccount a) :
    compute_reward s a = .error .keyError := by
  simp [compute_reward, ha]

theorem compute_reward_stale {s : State} {a : Nat} (ha : isAccount a)
    (hd : s.distribution_id a ≠ s.current_distribution_id) {hv : ℚ}
    (hhv : s.reward_per_token_history (s.distribution_id a) = some hv) :
    compute_reward s a
      = .ok ((s.stake a + s.pending_stake a) * s.reward_per_token
             - (s.reward_tally a + s.pending_stake a * hv)) := by
  unfold compute_reward
  rw [if_pos ha, if_pos hd, hhv]

theorem deposit_stake_err {s : State} {a : Nat} (ha : ¬ isAccount a)
    (q : ℚ) : deposit_stake s a q = .error (.keyError, s) := by
  unfold deposit_stake
  rw [update_state_err ha]

theorem deposit_stake_ok_of_inv {s : State} (h : Inv s) {a : Nat}
    (ha : isAccount a) (q : ℚ) :
    deposit_stake s a q
      = .ok { settled s a with
              pending_stake :=
                fset (settled s a).pending_stake a
                  ((settled s a).pending_stake a + q),
              total_pending_stake :=
                (settled s a).total_pending_stake + q } := by
  unfold deposit_stake
  rw [update_state_ok_of_inv h ha]

theorem withdraw_stake_err_key {s : State} {a : Nat} (ha : ¬ isAccount a)
    (q : ℚ) : withdraw_stake s a q = .error (.keyError, s) := by
  simp [withdraw_stake, ha]

theorem withdraw_stake_err_insufficient {s : State} {a : Nat}
    (ha : isAccount a) {q : ℚ}
    (hgt : q > s.stake a + s.pending_stake a) :
    withdraw_stake s a q = .error (.insufficientStake, s) := by
  unfold withdraw_stake
  rw [if_pos ha, if_pos hgt]

theorem withdraw_stake_ok_of_inv {s : State} (h : Inv s) {a : Nat}
    (ha : isAccount a) {q : ℚ}
    (hle : ¬ q > s.stake a + s.pending_stake a) :
    withdraw_stake s a q
      = .ok { settled s a with
              pending_stake :=
                fset (settled s a).pending_stake a
                  ((settled s a).pending_stake a
                    - min q ((settled s a).pending_stake a)),
              total_pending_stake :=
                (settled s a).total_pending_stake
                  - min q ((settled s a).pending_stake a),
              stake :=
                fset (settled s a).stake a
                  ((settled s a).stake a
                    - (q - min q ((settled s a).pending_stake a))),
              reward_tally :=
                fset (settled s a).reward_tally a
                  ((settled s a).reward_tally a
                    - (settled s a).reward_per_token
                      * (q - min q ((settled s a).pending_stake a))),
              total_stake :=
                (settled s a).total_stake
                  - (q - min q ((settled s a).pending_stake a)) } := by
  unfold withdraw_stake
  rw [if_pos ha, if_neg hle, update_state_ok_of_inv h ha]

theorem withdraw_reward_errB {s : State} {a : Nat} (ha : ¬ isAccount a) :
    withdraw_reward s a = .error (.keyError, s) := by
  unfold withdraw_reward
  rw [update_state_err ha]

theorem withdraw_reward_ok_of_inv {s : State} (h : Inv s) {a : Nat}
    (ha : isAccount a) :
    withdraw_reward s a
      = .ok ((settled s a).stake a * (settled s a).reward_per_token
               - (settled s a).reward_tally a,
             { settled s a with
               reward_tally :=
                 fset (settled s a).reward_tally a
                   ((settled s a).stake a
                     * (settled s a).reward_per_token) }) := by
  have hd : (settled s a).distribution_id a
      = (settled s a).current_distribution_id := by
    rw [settled_did_self, settled_cdi]
  unfold withdraw_reward
  rw [update_state_ok_of_inv h ha]
  simp only [compute_reward_settled ha hd]

end Gap

namespace Gap

theorem inv_initB : Inv init := by
  refine ⟨?_, ?_, ?_, ?_, ?_, ?_, ?_, ?_⟩ <;>
    simp [init, effActive, pendingPart]

theorem inv_distribute_auxB {s s' : State} (h : Inv s) {nr : ℚ}
    (hnr : 0 ≤ nr)
    (hrpt : s'.reward_per_token = s.reward_per_token + nr)
    (hhist : s'.reward_per_token_history
      = oset s.reward_per_token_history s.current_distribution_id
          (s.reward_per_token + nr))
    (hcdi : s'.current_distribution_id = s.current_distribution_id + 1)
    (htot : s'.total_stake = s.total_stake + s.total_pending_stake)
    (htp : s'.total_pending_stake = 0)
    (hst : s'.stake = s.stake)
    (htl : s'.reward_tally = s.reward_tally)
    (hpend : s'.pending_stake = s.pending_stake)
    (hdid : s'.distribution_id = s.distribution_id) : Inv s' := by
  have hstale : ∀ x, s'.distribution_id x ≠ s'.current_distribution_id := by
    intro x
    rw [hdid, hcdi]
    have := h.did_le x
    omega
  refine ⟨?_, ?_, ?_, ?_, ?_, ?_, ?_, ?_⟩
  · intro x; rw [hst]; exact h.stake_nonneg x
  · intro x; rw [hpend]; exact h.pending_nonneg x
  · intro x; rw [hdid, hcdi]
    exact le_trans (h.did_le x) (Nat.le_succ _)
  · intro k hk
    rw [hhist]
    rw [hcdi] at hk
    unfold oset
    by_cases hkc : k = s.current_distribution_id
    · simp [hkc]
    · have hklt : k < s.current_distribution_id := by omega
      simp only [if_neg hkc]
      exact h.hist_dom k hklt
  · intro k v hv
    rw [hrpt]
    rw [hhist] at hv
    unfold oset at hv
    by_cases hkc : k = s.current_distribution_id
    · rw [if_pos hkc] at hv
      injection hv with hv2
      linarith
    · rw [if_neg hkc] at hv
      have := h.hist_le k v hv
      linarith
  · intro x
    rw [htl, hst, hrpt]
    have h1 := h.tally_le x
    have h2 := mul_nonneg (h.stake_nonneg x) hnr
    nlinarith
  · rw [htot, h.total_eq, h.pending_eq]
    have he : ∀ x, effActive s' x = s.stake x + s.pending_stake x := by
      intro x
      unfold effActive
      rw [hst, hpend]
      simp [hstale x]
    have hsplit : ∀ x, effActive s x + pendingPart s x
        = s.stake x + s.pending_stake x := by
      intro x
      unfold effActive pendingPart
      by_cases hd : s.distribution_id x = s.current_distribution_id
      · simp [hd]
      · simp [hd]
    rw [he 1, he 2, ← hsplit 1, ← hsplit 2]
    ring
  · rw [htp]
    have hp : ∀ x, pendingPart s' x = 0 := by
      intro x
      unfold pendingPart
      simp [hstale x]
    rw [hp 1, hp 2]
    norm_num

theorem inv_distributeB {s : State} (h : Inv s) {reward : ℚ}
    (hr : 0 ≤ reward) : Inv (distribute s reward) := by
  unfold distribute
  by_cases h0 : 0 < s.total_stake
  · rw [if_pos h0]
    exact inv_distribute_auxB h (div_nonneg hr (le_of_lt h0))
      rfl rfl rfl rfl rfl rfl rfl rfl rfl
  · rw [if_neg h0]
    exact inv_distribute_auxB h (le_refl 0)
      (by ring) (by norm_num) rfl rfl rfl rfl rfl rfl rfl

end Gap

namespace Gap

theorem inv_deposit_auxB {t s' : State} (h : Inv t) {a : Nat} {q : ℚ}
    (hq : 0 ≤ q) (ha : isAccount a)
    (hsettled : t.distribution_id a = t.current_distribution_id)
    (hpend : s'.pending_stake
      = fset t.pending_stake a (t.pending_stake a + q))
    (htp : s'.total_pending_stake = t.total_pending_stake + q)
    (hst : s'.stake = t.stake)
    (htl : s'.reward_tally = t.reward_tally)
    (htot : s'.total_stake = t.total_stake)
    (hcdi : s'.current_distribution_id = t.current_distribution_id)
    (hdid : s'.distribution_id = t.distribution_id)
    (hrpt : s'.reward_per_token = t.reward_per_token)
    (hhist : s'.reward_per_token_history = t.reward_per_token_history) :
    Inv s' := by
  refine ⟨?_, ?_, ?_, ?_, ?_, ?_, ?_, ?_⟩
  · intro x; rw [hst]; exact h.stake_nonneg x
  · intro x; rw [hpend]
    by_cases hx : x = a
    · subst hx
      simpa [fset] using add_nonneg (h.pending_nonneg x) hq
    · simp only [fset, if_neg hx]; exact h.pending_nonneg x
  · intro x; rw [hdid, hcdi]; exact h.did_le x
  · intro k hk; rw [hhist]; rw [hcdi] at hk; exact h.hist_dom k hk
  · intro k v hv; rw [hrpt]; rw [hhist] at hv; exact h.hist_le k v hv
  · intro x; rw [htl, hst, hrpt]; exact h.tally_le x
  · rw [htot, h.total_eq]
    have he : ∀ x, effActive s' x = effActive t x := by
      intro x
      unfold effActive
      rw [hst, hdid, hcdi, hpend]
      by_cases hx : x = a
      · subst hx; simp [hsettled]
      · simp [fset, hx]
    rw [he 1, he 2]
  · rw [htp, h.pending_eq]
    have hppo : ∀ x, x ≠ a → pendingPart s' x = pendingPart t x := by
      intro x hx
      unfold pendingPart
      rw [hdid, hcdi, hpend]
      simp [fset, hx]
    have hppa : pendingPart s' a = pendingPart t a + q := by
      unfold pendingPart
      rw [hdid, hcdi, hpend]
      simp [fset, hsettled]
    rcases ha with h1 | h1 <;> subst h1
    · rw [hppa, hppo 2 (by norm_num)]; ring
    · rw [hppa, hppo 1 (by norm_num)]; ring

theorem inv_depositB {s : State} (h : Inv s) (a : Nat) {q : ℚ} (hq : 0 ≤ q) :
    Inv (outcome (deposit_stake s a q)) := by
  by_cases ha : isAccount a
  · rw [deposit_stake_ok_of_inv h ha q]
    exact inv_deposit_auxB (inv_settled h a) hq ha
      (by rw [settled_did_self, settled_cdi]) rfl rfl rfl rfl rfl rfl rfl rfl rfl
  · rw [deposit_stake_err ha q]
    exact h

theorem inv_withdraw_auxB {t s' : State} (h : Inv t) {a : Nat} {q : ℚ}
    (hq : 0 ≤ q) (ha : isAccount a)
    (hsettled : t.distribution_id a = t.current_distribution_id)
    (hqle : q ≤ t.stake a + t.pending_stake a)
    (hpend : s'.pending_stake
      = fset t.pending_stake a
          (t.pending_stake a - min q (t.pending_stake a)))
    (htp : s'.total_pending_stake
      = t.total_pending_stake - min q (t.pending_stake a))
    (hst : s'.stake
      = fset t.stake a (t.stake a - (q - min q (t.pending_stake a))))
    (htl : s'.reward_tally
      = fset t.reward_tally a
          (t.reward_tally a
            - t.reward_per_token * (q - min q (t.pending_stake a))))
    (htot : s'.total_stake
      = t.total_stake - (q - min q (t.pending_stake a)))
    (hcdi : s'.current_distribution_id = t.current_distribution_id)
    (hdid : s'.distribution_id = t.distribution_id)
    (hrpt : s'.reward_per_token = t.reward_per_token)
    (hhist : s'.reward_per_token_history = t.reward_per_token_history) :
    Inv s' := by
  have hpa0 : 0 ≤ min q (t.pending_stake a) := le_min hq (h.pending_nonneg a)
  have hpale : min q (t.pending_stake a) ≤ t.pending_stake a :=
    min_le_right _ _
  have hca0 : 0 ≤ q - min q (t.pending_stake a) := by
    have := min_le_left q (t.pending_stake a); linarith
  have hcale : q - min q (t.pending_stake a) ≤ t.stake a := by
    rcases le_total q (t.pending_stake a) with hc | hc
    · rw [min_eq_left hc]
      simpa using h.stake_nonneg a
    · rw [min_eq_right hc]; linarith
  refine ⟨?_, ?_, ?_, ?_, ?_, ?_, ?_, ?_⟩
  · intro x; rw [hst]
    by_cases hx : x = a
    · subst hx; simp [fset]; linarith
    · simp only [fset, if_neg hx]; exact h.stake_nonneg x
  · intro x; rw [hpend]
    by_cases hx : x = a
    · subst hx; simp [fset]
    · simp only [fset, if_neg hx]; exact h.pending_nonneg x
  · intro x; rw [hdid, hcdi]; exact h.did_le x
  · intro k hk; rw [hhist]; rw [hcdi] at hk; exact h.hist_dom k hk
  · intro k v hv; rw [hrpt]; rw [hhist] at hv; exact h.hist_le k v hv
  · intro x; rw [htl, hst, hrpt]
    by_cases hx : x = a
    · subst hx; simp [fset]
      nlinarith [h.tally_le x]
    · simp only [fset, if_neg hx]; exact h.tally_le x
  · rw [htot, h.total_eq]
    have hsettled2 : s'.distribution_id a = s'.current_distribution_id := by
      rw [hdid, hcdi]; exact hsettled
    have hea : effActive s' a
        = effActive t a - (q - min q (t.pending_stake a)) := by
      unfold effActive
      rw [hst, hdid, hcdi]
      simp [fset, hsettled]
    have heo : ∀ x, x ≠ a → effActive s' x = effActive t x := by
      intro x hx
      unfold effActive
      rw [hst, hdid, hcdi, hpend]
      simp [fset, hx]
    rcases ha with h1 | h1 <;> subst h1
    · rw [hea, heo 2 (by norm_num)]; ring
    · rw [hea, heo 1 (by norm_num)]; ring
  · rw [htp, h.pending_eq]
    have hpa : pendingPart s' a
        = pendingPart t a - min q (t.pending_stake a) := by
      unfold pendingPart
      rw [hdid, hcdi, hpend]
      simp [fset, hsettled]
    have hpo : ∀ x, x ≠ a → pendingPart s' x = pendingPart t x := by
      intro x hx
      unfold pendingPart
      rw [hdid, hcdi, hpend]
      simp [fset, hx]
    rcases ha with h1 | h1 <;> subst h1
    · rw [hpa, hpo 2 (by norm_num)]; ring
    · rw [hpa, hpo 1 (by norm_num)]; ring

theorem inv_withdrawB {s : State} (h : Inv s) (a : Nat) {q : ℚ}
    (hq : 0 ≤ q) : Inv (outcome (withdraw_stake s a q)) := by
  by_cases ha : isAccount a
  · by_cases hgt : q > s.stake a + s.pending_stake a
    · rw [withdraw_stake_err_insufficient ha hgt]; exact h
    · rw [withdraw_stake_ok_of_inv h ha hgt]
      exact inv_withdraw_auxB (inv_settled h a) hq ha
        (by rw [settled_did_self, settled_cdi])
        (by rw [settled_sum_self]; exact not_lt.mp hgt)
        rfl rfl rfl rfl rfl rfl rfl rfl rfl
  · rw [withdraw_stake_err_key ha q]; exact h

theorem inv_withdraw_reward_auxB {t s' : State} (h : Inv t) {a : Nat}
    (htl : s'.reward_tally
      = fset t.reward_tally a (t.stake a * t.reward_per_token))
    (hst : s'.stake = t.stake)
    (hpend : s'.pending_stake = t.pending_stake)
    (hdid : s'.distribution_id = t.distribution_id)
    (hcdi : s'.current_distribution_id = t.current_distribution_id)
    (hrpt : s'.reward_per_token = t.reward_per_token)
    (hhist : s'.reward_per_token_history = t.reward_per_token_history)
    (htot : s'.total_stake = t.total_stake)
    (htp : s'.total_pending_stake = t.total_pending_stake) : Inv s' := by
  refine ⟨?_, ?_, ?_, ?_, ?_, ?_, ?_, ?_⟩
  · intro x; rw [hst]; exact h.stake_nonneg x
  · intro x; rw [hpend]; exact h.pending_nonneg x
  · intro x; rw [hdid, hcdi]; exact h.did_le x
  · intro k hk; rw [hhist]; rw [hcdi] at hk; exact h.hist_dom k hk
  · intro k v hv; rw [hrpt]; rw [hhist] at hv; exact h.hist_le k v hv
  · intro x; rw [htl, hst, hrpt]
    by_cases hx : x = a
    · subst hx; simp [fset]
    · simp only [fset, if_neg hx]; exact h.tally_le x
  · rw [htot]
    have he : ∀ x, effActive s' x = effActive t x := by
      intro x; unfold effActive; rw [hst, hdid, hcdi, hpend]
    rw [he 1, he 2]; exact h.total_eq
  · rw [htp]
    have hp : ∀ x, pendingPart s' x = pendingPart t x := by
      intro x; unfold pendingPart; rw [hdid, hcdi, hpend]
    rw [hp 1, hp 2]; exact h.pending_eq

theorem inv_withdraw_rewardB {s : State} (h : Inv s) (a : Nat) :
    Inv (outcomeR (withdraw_reward s a)) := by
  by_cases ha : isAccount a
  · rw [withdraw_reward_ok_of_inv h ha]
    exact inv_withdraw_reward_auxB (inv_settled h a)
      rfl rfl rfl rfl rfl rfl rfl rfl rfl
  · rw [withdraw_reward_errB ha]; exact h

/-- Every reachable Policy B state satisfies the inductive invariant. -/
theorem inv_of_reachB {s : State} (h : Reach s) : Inv s := by
  induction h with
  | init => exact inv_initB
  | distribute reward hR hr ih => exact inv_distributeB ih hr
  | deposit address amount hR hq ih => exact inv_depositB ih address hq
  | withdraw address amount hR hq ih => exact inv_withdrawB ih address hq
  | reward address hR ih => exact inv_withdraw_rewardB ih address

end Gap

/-- Claim C1: for every state reachable from the initial ledger by any
finite sequence of distribute, deposit_stake, withdraw_stake (with
non-negative amounts) and withdraw_reward calls, and for every address,
a `compute_reward` that returns a value returns a non-negative one, in
both Policy A and Policy B. -/
theorem claim_C1_no_negative_rewards :
    (∀ (s : Deferred.State) (a : Nat) (r : ℚ), Deferred.Reach s →
      Deferred.compute_reward s a = .ok r → 0 ≤ r) ∧
    (∀ (s : Gap.State) (a : Nat) (r : ℚ), Gap.Reach s →
      Gap.compute_reward s a = .ok r → 0 ≤ r) := by
  constructor
  · intro s a r hs hr
    by_cases ha : isAccount a
    · rw [Deferred.compute_reward_eq ha] at hr
      injection hr with hr2
      rw [← hr2]
      exact (Deferred.inv_of_reach hs).reward_nonneg a
    · rw [Deferred.compute_reward_not ha] at hr
      simp at hr
  · intro s a r hs hr
    have h := Gap.inv_of_reachB hs
    by_cases ha : isAccount a
    · by_cases hd : s.distribution_id a = s.current_distribution_id
      · rw [Gap.compute_reward_settled ha hd] at hr
        injection hr with hr2
        have := h.tally_le a
        linarith
      · have hlt := lt_of_le_of_ne (h.did_le a) hd
        obtain ⟨hv, hhv⟩ := Option.isSome_iff_exists.mp (h.hist_dom _ hlt)
        rw [Gap.compute_reward_stale ha hd hhv] at hr
        injection hr with hr2
        have h1 := h.tally_le a
        have h2 := h.pending_nonneg a
        have h3 := h.hist_le _ _ hhv
        nlinarith
    · rw [Gap.compute_reward_notB ha] at hr
      simp at hr

/-- Witness for C1 at the initial Policy A state and address 0x1. -/
theorem claim_C1_no_negative_rewards_witness : (0 : ℚ) ≤ 0 :=
  claim_C1_no_negative_rewards.1 Deferred.init 1 0 Deferred.Reach.init
    (by rw [Deferred.compute_reward_eq (Or.inl rfl)]
        norm_num [Deferred.rewardVal, Deferred.previousStake, Deferred.init])

/-- Claim C4: in Policy A, `distribute(reward)` with `total_stake == 0`
fails with EmptyPool carrying the unchanged state; with `total_stake > 0`
it sets `last_rate` to `(reward + lost_reward) / total_stake`, adds it to
`reward_per_token`, resets `lost_reward` to 0, advances
`current_distribution_id` by exactly 1, and touches no account field
(proved for every state, hence for every reachable one). -/
theorem claim_C4_policyA_distribute :
    ∀ (s : Deferred.State) (reward : ℚ),
      (s.total_stake = 0 →
        Deferred.distribute s reward = .error (.emptyPool, s)) ∧
      (0 < s.total_stake →
        ∃ s₂, Deferred.distribute s reward = .ok s₂ ∧
          s₂.last_rate = (reward + s.lost_reward) / s.total_stake ∧
          s₂.reward_per_token = s.reward_per_token + s₂.last_rate ∧
          s₂.lost_reward = 0 ∧
          s₂.current_distribution_id = s.current_distribution_id + 1 ∧
          s₂.total_stake = s.total_stake ∧
          s₂.stake = s.stake ∧
          s₂.reward_tally = s.reward_tally ∧
          s₂.rewarded_stake = s.rewarded_stake ∧
          s₂.distribution_id = s.distribution_id) := by
  intro s reward
  constructor
  · intro h0
    exact Deferred.distribute_err h0 reward
  · intro hpos
    exact ⟨_, Deferred.distribute_ok (ne_of_gt hpos) reward,
      rfl, rfl, rfl, rfl, rfl, rfl, rfl, rfl, rfl⟩

/-- Witness for C4: the empty-pool branch at the freshly constructed
ledger, and the success branch at a pool holding stake 100. -/
theorem claim_C4_policyA_distribute_witness :
    Deferred.distribute Deferred.init 5 = .error (.emptyPool, Deferred.init)
      ∧ ∃ s₂,
          Deferred.distribute { Deferred.init with total_stake := 100 } 5
            = .ok s₂ ∧ s₂.current_distribution_id = 1 := by
  constructor
  · exact (claim_C4_policyA_distribute Deferred.init 5).1 rfl
  · obtain ⟨s₂, heq, hrest⟩ :=
      (claim_C4_policyA_distribute
        { Deferred.init with total_stake := 100 } 5).2 (by norm_num [Deferred.init])
    exact ⟨s₂, heq, by rw [hrest.2.2.2.1]; rfl⟩

/-- Claim C5: in Policy B, `distribute(reward)` never fails (it is a total
function of the state); with `total_stake == 0` the `reward_per_token`
increment is skipped, otherwise `reward / total_stake` is added; the
(possibly updated) `reward_per_token` is recorded in the history under the
pre-advance `current_distribution_id`, the other history entries are kept;
the epoch advances by exactly 1, `total_pending_stake` is folded into
`total_stake` and reset to zero, and no account field is touched (proved
for every state, hence for every reachable one). -/
theorem claim_C5_policyB_distribute :
    ∀ (s : Gap.State) (reward : ℚ),
      (s.total_stake = 0 →
        (Gap.distribute s reward).reward_per_token = s.reward_per_token) ∧
      (0 < s.total_stake →
        (Gap.distribute s reward).reward_per_token
          = s.reward_per_token + reward / s.total_stake) ∧
      (Gap.distribute s reward).reward_per_token_history
          s.current_distribution_id
        = some ((Gap.distribute s reward).reward_per_token) ∧
      (∀ k, k ≠ s.current_distribution_id →
        (Gap.distribute s reward).reward_per_token_history k
          = s.reward_per_token_history k) ∧
      (Gap.distribute s reward).current_distribution_id
        = s.current_distribution_id + 1 ∧
      (Gap.distribute s reward).total_stake
        = s.total_stake + s.total_pending_stake ∧
      (Gap.distribute s reward).total_pending_stake = 0 ∧
      (Gap.distribute s reward).stake = s.stake ∧
      (Gap.distribute s reward).reward_tally = s.reward_tally ∧
      (Gap.distribute s reward).pending_stake = s.pending_stake ∧
      (Gap.distribute s reward).distribution_id = s.distribution_id := by
  intro s reward
  unfold Gap.distribute
  by_cases h0 : 0 < s.total_stake
  · rw [if_pos h0]
    refine ⟨?_, ?_, ?_, ?_, rfl, rfl, rfl, rfl, rfl, rfl, rfl⟩
    · intro hz; exact absurd hz (ne_of_gt h0)
    · intro _; rfl
    · simp [oset]
    · intro k hk; simp [oset, hk]
  · rw [if_neg h0]
    refine ⟨?_, ?_, ?_, ?_, rfl, rfl, rfl, rfl, rfl, rfl, rfl⟩
    · intro _; rfl
    · intro hpos; exact absurd hpos h0
    · simp [oset]
    · intro k hk; simp [oset, hk]

/-- Witness for C5 at the freshly constructed ledger with reward 5. -/
theorem claim_C5_policyB_distribute_witness :
    (Gap.distribute Gap.init 5).reward_per_token = Gap.init.reward_per_token
      ∧ (Gap.distribute Gap.init 5).current_distribution_id = 1
      ∧ (Gap.distribute Gap.init 5).reward_per_token_history 0
          = some ((Gap.distribute Gap.init 5).reward_per_token) := by
  refine ⟨(claim_C5_policyB_distribute Gap.init 5).1 rfl,
    (claim_C5_policyB_distribute Gap.init 5).2.2.2.2.1,
    (claim_C5_policyB_distribute Gap.init 5).2.2.1⟩

/-- Claim C6: starting from a freshly constructed Policy A ledger, the
sequence deposit_stake(1, 100); deposit_stake(2, 50); distribute(10);
withdraw_stake(1, 100); deposit_stake(1, 50); distribute(10) makes
withdraw_reward(1) return 0 and then withdraw_reward(2) return 10/3. -/
theorem claim_C6_policyA_scenario :
    ((((((Deferred.deposit_stake Deferred.init 1 100).bind fun s =>
      Deferred.deposit_stake s 2 50).bind fun s =>
      Deferred.distribute s 10).bind fun s =>
      Deferred.withdraw_stake s 1 100).bind fun s =>
      Deferred.deposit_stake s 1 50).bind fun s =>
      Deferred.distribute s 10).bind
        (fun s => (Deferred.withdraw_reward s 1).bind fun r₁ =>
          (Deferred.withdraw_reward r₁.2 2).map fun r₂ => (r₁.1, r₂.1))
      = .ok ((0 : ℚ), (10 / 3 : ℚ)) := by
  norm_num [Deferred.deposit_stake, Deferred.distribute,
    Deferred.withdraw_stake, Deferred.withdraw_reward,
    Deferred.compute_reward, Deferred.update_rewarded_stake, Deferred.init,
    isAccount, fset, nset, Except.bind, Except.map]

/-- Counterexample to claim C2: in Policy A, after deposit_stake(1, 100)
and distribute(10) — a reachable state — withdraw_reward(1) leaves
reward_tally[1] = 0 while stake[1] * reward_per_token = 10, and performs
no settlement (the account's distribution_id stays 0 while the pool's
current_distribution_id is 1). -/
theorem claim_C2_counterexample :
    ((Deferred.deposit_stake Deferred.init 1 100).bind fun s =>
      (Deferred.distribute s 10).bind fun s₂ =>
      (Deferred.withdraw_reward s₂ 1).map fun rs =>
        (rs.2.reward_tally 1, rs.2.stake 1 * rs.2.reward_per_token,
         rs.2.distribution_id 1, rs.2.current_distribution_id))
      = .ok ((0 : ℚ), (10 : ℚ), 0, 1) ∧ (0 : ℚ) ≠ 10 := by
  constructor
  · norm_num [Deferred.deposit_stake, Deferred.distribute,
      Deferred.withdraw_reward, Deferred.compute_reward,
      Deferred.update_rewarded_stake, Deferred.init, isAccount, fset, nset,
      Except.bind, Except.map]
  · norm_num

/-- Amended claim C2: in Policy B, withdraw_reward settles the account,
returns the settled account's unclaimed reward, and leaves
reward_tally[address] = stake[address] * reward_per_token.  In Policy A,
withdraw_reward performs no settlement (distribution_id is untouched),
returns compute_reward's value, and leaves reward_tally[address] =
stake[address] * reward_per_token − previous_stake * last_rate — in both
policies the reward is considered paid: an immediately following
compute_reward returns 0. -/
theorem claim_C2_amended_withdraw_reward :
    (∀ (s : Deferred.State) (a : Nat), isAccount a →
      ∃ s₂, Deferred.withdraw_reward s a
          = .ok (Deferred.rewardVal s a, s₂)
        ∧ s₂.reward_tally a
            = s.stake a * s.reward_per_token
              - Deferred.previousStake s a * s.last_rate
        ∧ s₂.distribution_id = s.distribution_id
        ∧ Deferred.compute_reward s₂ a = .ok 0) ∧
    (∀ (s : Gap.State) (a : Nat), Gap.Reach s → isAccount a →
      ∃ r s₂, Gap.withdraw_reward s a = .ok (r, s₂)
        ∧ Gap.compute_reward (Gap.settled s a) a = .ok r
        ∧ s₂.reward_tally a = s₂.stake a * s₂.reward_per_token
        ∧ s₂.distribution_id a = s₂.current_distribution_id
        ∧ Gap.compute_reward s₂ a = .ok 0) := by
  constructor
  · intro s a ha
    refine ⟨_, Deferred.withdraw_reward_ok ha, ?_, rfl, ?_⟩
    · unfold Deferred.rewardVal
      simp [fset]
      ring
    · rw [Deferred.compute_reward_eq ha]
      unfold Deferred.rewardVal Deferred.previousStake
      simp [fset]
      ring
  · intro s a hs ha
    have h := Gap.inv_of_reachB hs
    have hd : (Gap.settled s a).distribution_id a
        = (Gap.settled s a).current_distribution_id := by
      rw [Gap.settled_did_self, Gap.settled_cdi]
    refine ⟨_, _, Gap.withdraw_reward_ok_of_inv h ha,
      Gap.compute_reward_settled ha hd, ?_, ?_, ?_⟩
    · simp [fset]
    · exact hd
    · have hd2 : ({ Gap.settled s a with
          reward_tally := fset (Gap.settled s a).reward_tally a
            ((Gap.settled s a).stake a * (Gap.settled s a).reward_per_token)
          } : Gap.State).distribution_id a
          = ({ Gap.settled s a with
          reward_tally := fset (Gap.settled s a).reward_tally a
            ((Gap.settled s a).stake a * (Gap.settled s a).reward_per_token)
          } : Gap.State).current_distribution_id := hd
      rw [Gap.compute_reward_settled ha hd2]
      simp [fset]

/-- Witness for the amended C2 at the initial Policy A state, address 0x1. -/
theorem claim_C2_amended_withdraw_reward_witness :
    ∃ s₂, Deferred.withdraw_reward Deferred.init 1
        = .ok (Deferred.rewardVal Deferred.init 1, s₂)
      ∧ s₂.reward_tally 1
          = Deferred.init.stake 1 * Deferred.init.reward_per_token
            - Deferred.previousStake Deferred.init 1 * Deferred.init.last_rate
      ∧ s₂.distribution_id = Deferred.init.distribution_id
      ∧ Deferred.compute_reward s₂ 1 = .ok 0 :=
  claim_C2_amended_withdraw_reward.1 Deferred.init 1 (Or.inl rfl)

/-- Claim C3: in both policies, `withdraw_stake(address, amount)` fails
with InsufficientStake exactly when `amount` exceeds the account's total
claimable stake (active stake in Policy A; active plus pending in
Policy B), and a failing call carries the input state unchanged — the
validation is performed before any mutation.  Stated for the addresses
the dicts hold (any other address raises KeyError before reading, see C8);
the Policy B half assumes a reachable state so that the history lookup of
its settlement step cannot itself fail. -/
theorem claim_C3_withdraw_stake_validation :
    (∀ (s : Deferred.State) (a : Nat) (q : ℚ), isAccount a →
      (∀ e s₂, Deferred.withdraw_stake s a q = .error (e, s₂) →
        e = Err.insufficientStake ∧ s₂ = s ∧ q > s.stake a) ∧
      (q > s.stake a →
        Deferred.withdraw_stake s a q = .error (.insufficientStake, s))) ∧
    (∀ (s : Gap.State) (a : Nat) (q : ℚ), Gap.Reach s → isAccount a →
      (∀ e s₂, Gap.withdraw_stake s a q = .error (e, s₂) →
        e = Err.insufficientStake ∧ s₂ = s
          ∧ q > s.stake a + s.pending_stake a) ∧
      (q > s.stake a + s.pending_stake a →
        Gap.withdraw_stake s a q = .error (.insufficientStake, s))) := by
  constructor
  · intro s a q ha
    unfold Deferred.withdraw_stake
    rw [if_pos ha]
    by_cases hgt : q > s.stake a
    · rw [if_pos hgt]
      refine ⟨?_, fun _ => rfl⟩
      intro e s₂ heq
      have h1 : Err.insufficientStake = e ∧ s = s₂ := by
        simpa using heq
      exact ⟨h1.1.symm, h1.2.symm, hgt⟩
    · rw [if_neg hgt]
      refine ⟨?_, fun hgt2 => absurd hgt2 hgt⟩
      intro e s₂ heq
      simp at heq
  · intro s a q hs ha
    by_cases hgt : q > s.stake a + s.pending_stake a
    · rw [Gap.withdraw_stake_err_insufficient ha hgt]
      refine ⟨?_, fun _ => rfl⟩
      intro e s₂ heq
      have h1 : Err.insufficientStake = e ∧ s = s₂ := by
        simpa using heq
      exact ⟨h1.1.symm, h1.2.symm, hgt⟩
    · rw [Gap.withdraw_stake_ok_of_inv (Gap.inv_of_reachB hs) ha hgt]
      refine ⟨?_, fun hgt2 => absurd hgt2 hgt⟩
      intro e s₂ heq
      simp at heq

/-- Witness for C3: withdrawing 1 from the freshly constructed Policy B
ledger (claimable stake 0) fails with InsufficientStake and an unchanged
state, and the same on the Policy A side. -/
theorem claim_C3_withdraw_stake_validation_witness :
    Deferred.withdraw_stake Deferred.init 1 1
        = .error (.insufficientStake, Deferred.init)
      ∧ Gap.withdraw_stake Gap.init 1 1
        = .error (.insufficientStake, Gap.init) :=
  ⟨(claim_C3_withdraw_stake_validation.1 Deferred.init 1 1 (Or.inl rfl)).2
      (by norm_num [Deferred.init]),
   (claim_C3_withdraw_stake_validation.2 Gap.init 1 1 Gap.Reach.init
      (Or.inl rfl)).2 (by norm_num [Gap.init])⟩

namespace Deferred

theorem withdraw_reward_again {s s₂ : State} {a : Nat} {r : ℚ}
    (h : withdraw_reward s a = .ok (r, s₂)) :
    (withdraw_reward s₂ a).map Prod.fst = .ok 0 := by
  by_cases ha : isAccount a
  · rw [withdraw_reward_ok ha] at h
    simp only [Except.ok.injEq, Prod.mk.injEq] at h
    obtain ⟨hr, hs2⟩ := h
    rw [← hs2, withdraw_reward_ok ha]
    simp only [Except.map]
    unfold rewardVal previousStake
    simp [fset]
    ring
  · rw [withdraw_reward_err ha] at h
    simp at h

end Deferred

namespace Gap

theorem update_state_ok_settled {s t : State} {a : Nat}
    (h : update_state s a = .ok t) :
    isAccount a ∧ t.distribution_id a = t.current_distribution_id := by
  unfold update_state at h
  by_cases ha : isAccount a
  · rw [if_pos ha] at h
    refine ⟨ha, ?_⟩
    by_cases hd : s.distribution_id a ≠ s.current_distribution_id
    · rw [if_pos hd] at h
      cases hh : s.reward_per_token_history (s.distribution_id a) with
      | none => rw [hh] at h; simp at h
      | some hv =>
          rw [hh] at h
          simp only [Except.ok.injEq] at h
          rw [← h]
          simp [nset]
    · rw [if_neg hd] at h
      simp only [Except.ok.injEq] at h
      rw [← h]
      exact not_ne_iff.mp hd
  · rw [if_neg ha] at h
    simp at h

theorem withdraw_reward_againB {s s₂ : State} {a : Nat} {r : ℚ}
    (h : withdraw_reward s a = .ok (r, s₂)) :
    (withdraw_reward s₂ a).map Prod.fst = .ok 0 := by
  unfold withdraw_reward at h
  split at h
  · simp at h
  · rename_i t hu
    split at h
    · simp at h
    · rename_i rv hc
      simp only [Except.ok.injEq, Prod.mk.injEq] at h
      obtain ⟨hr, hs2⟩ := h
      obtain ⟨ha, hset⟩ := update_state_ok_settled hu
      have hset2 : s₂.distribution_id a = s₂.current_distribution_id := by
        rw [← hs2]; exact hset
      have hu2 : update_state s₂ a = .ok s₂ := by
        unfold update_state
        rw [if_pos ha, if_neg (not_ne_iff.mpr hset2)]
      unfold withdraw_reward
      rw [hu2]
      simp only [compute_reward_settled ha hset2, Except.map]
      have htl : s₂.reward_tally a = s₂.stake a * s₂.reward_per_token := by
        rw [← hs2]
        simp [fset]
      rw [htl]
      simp

end Gap

/-- Counterexample to claim C7: the freshly constructed Policy A ledger is
reachable, and the FIRST withdraw_reward(0x1) call already returns exactly
zero, not a non-zero amount. -/
theorem claim_C7_counterexample :
    Deferred.Reach Deferred.init
      ∧ (Deferred.withdraw_reward Deferred.init 1).map Prod.fst
          = .ok (0 : ℚ) := by
  refine ⟨Deferred.Reach.init, ?_⟩
  norm_num [Deferred.withdraw_reward, Deferred.compute_reward,
    Deferred.init, isAccount, Except.map]

/-- Amended claim C7: in both policies, calling withdraw_reward twice in
succession with no intervening deposit_stake, withdraw_stake or
distribute call returns the account's unclaimed reward the first time —
an amount that may be zero — and exactly zero the second time. -/
theorem claim_C7_amended_second_withdraw_zero :
    (∀ (s s₂ : Deferred.State) (a : Nat) (r : ℚ),
      Deferred.withdraw_reward s a = .ok (r, s₂) →
      (Deferred.withdraw_reward s₂ a).map Prod.fst = .ok 0) ∧
    (∀ (s s₂ : Gap.State) (a : Nat) (r : ℚ),
      Gap.withdraw_reward s a = .ok (r, s₂) →
      (Gap.withdraw_reward s₂ a).map Prod.fst = .ok 0) :=
  ⟨fun _ _ _ _ h => Deferred.withdraw_reward_again h,
   fun _ _ _ _ h => Gap.withdraw_reward_againB h⟩

/-- Witness for the amended C7 at the initial Policy A state, address 0x1. -/
theorem claim_C7_amended_second_withdraw_zero_witness :
    (Deferred.withdraw_reward
        { Deferred.init with
          reward_tally :=
            fset Deferred.init.reward_tally 1
              (Deferred.init.reward_tally 1
                + Deferred.rewardVal Deferred.init 1) } 1).map Prod.fst
      = .ok 0 :=
  claim_C7_amended_second_withdraw_zero.1 Deferred.init _ 1
    (Deferred.rewardVal Deferred.init 1)
    (Deferred.withdraw_reward_ok (Or.inl rfl))

/-- Counterexample to claim C8: neither class creates account records
lazily — the dicts are built in `__init__` with exactly the keys 0x1 and
0x2, so `compute_reward` on the unknown address 0x3 raises KeyError in
both policies instead of returning the zero-state result. -/
theorem claim_C8_counterexample :
    Deferred.compute_reward Deferred.init 3 = .error .keyError
      ∧ Gap.compute_reward Gap.init 3 = .error .keyError :=
  ⟨Deferred.compute_reward_not (by decide),
   Gap.compute_reward_notB (by decide)⟩

/-- Amended claim C8: both policies pre-create zero-filled account
records for exactly the addresses 0x1 and 0x2 at construction;
operations on those two addresses never fail on account of the address
(`compute_reward` on the initial state returns 0 and `deposit_stake`
always succeeds — for Policy B on every reachable state), while every
other address raises KeyError, with the mutating `deposit_stake`
carrying the state unchanged. -/
theorem claim_C8_amended_fixed_account_set :
    ∀ a : Nat,
      (isAccount a →
        Deferred.compute_reward Deferred.init a = .ok 0
        ∧ Gap.compute_reward Gap.init a = .ok 0
        ∧ (∀ (s : Deferred.State) (q : ℚ),
            ∃ s₂, Deferred.deposit_stake s a q = .ok s₂)
        ∧ (∀ s : Gap.State, Gap.Reach s → ∀ q : ℚ,
            ∃ s₂, Gap.deposit_stake s a q = .ok s₂)) ∧
      (¬ isAccount a →
        (∀ s : Deferred.State,
          Deferred.compute_reward s a = .error .keyError)
        ∧ (∀ s : Gap.State, Gap.compute_reward s a = .error .keyError)
        ∧ (∀ (s : Deferred.State) (q : ℚ),
            Deferred.deposit_stake s a q = .error (.keyError, s))
        ∧ (∀ (s : Gap.State) (q : ℚ),
            Gap.deposit_stake s a q = .error (.keyError, s))) := by
  intro a
  constructor
  · intro ha
    refine ⟨?_, ?_, ?_, ?_⟩
    · rw [Deferred.compute_reward_eq ha]
      rcases ha with h1 | h1 <;> subst h1 <;>
        norm_num [Deferred.rewardVal, Deferred.previousStake, Deferred.init]
    · rcases ha with h1 | h1 <;> subst h1 <;>
        rw [Gap.compute_reward_settled (by decide) rfl] <;>
        norm_num [Gap.init]
    · intro s q
      unfold Deferred.deposit_stake
      rw [if_pos ha]
      exact ⟨_, rfl⟩
    · intro s hs q
      exact ⟨_, Gap.deposit_stake_ok_of_inv (Gap.inv_of_reachB hs) ha q⟩
  · intro ha
    exact ⟨fun s => Deferred.compute_reward_not ha,
      fun s => Gap.compute_reward_notB ha,
      fun s q => by
        unfold Deferred.deposit_stake
        rw [if_neg ha],
      fun s q => Gap.deposit_stake_err ha q⟩

/-- Witness for the amended C8 at addresses 0x1 (known) and 0x3
(unknown). -/
theorem claim_C8_amended_fixed_account_set_witness :
    Deferred.compute_reward Deferred.init 1 = .ok 0
      ∧ Gap.compute_reward Gap.init 3 = .error .keyError :=
  ⟨((claim_C8_amended_fixed_account_set 1).1 (Or.inl rfl)).1,
   (((claim_C8_amended_fixed_account_set 3).2 (by decide)).2.1) Gap.init⟩

/-- Counterexample to claim C9: after deposit_stake(0x1, 100) and
distribute(10) — a reachable Policy A state — no account's
distribution_id equals the pool's current_distribution_id, so the sum of
stake over settled accounts is 0 while total_stake is 100. -/
theorem claim_C9_counterexample :
    Deferred.Reach (outcome (Deferred.distribute
        (outcome (Deferred.deposit_stake Deferred.init 1 100)) 10))
      ∧ Deferred.settledStakeSum (outcome (Deferred.distribute
          (outcome (Deferred.deposit_stake Deferred.init 1 100)) 10)) = 0
      ∧ (outcome (Deferred.distribute
          (outcome (Deferred.deposit_stake Deferred.init 1 100)) 10)).total_stake
          = 100
      ∧ (0 : ℚ) ≠ 100 := by
  refine ⟨Deferred.Reach.distribute 10
      (Deferred.Reach.deposit 1 100 Deferred.Reach.init (by norm_num))
      (by norm_num), ?_, ?_, by norm_num⟩
  · norm_num [Deferred.settledStakeSum, Deferred.deposit_stake,
      Deferred.distribute, Deferred.update_rewarded_stake, Deferred.init,
      isAccount, fset, nset, outcome]
  · norm_num [Deferred.deposit_stake, Deferred.distribute,
      Deferred.update_rewarded_stake, Deferred.init, isAccount, fset, nset,
      outcome]

/-- Amended claim C9: at every reachable state, Policy A's `total_stake`
equals the sum of `stake` over all accounts, settled or not; Policy B's
`total_stake` equals the sum over all accounts of `stake` plus, for
accounts whose `distribution_id` differs from the pool's
`current_distribution_id`, their `pending_stake` (which the next
settlement will fold into `stake`). -/
theorem claim_C9_amended_total_stake_eq :
    (∀ s : Deferred.State, Deferred.Reach s →
      s.total_stake = s.stake 1 + s.stake 2) ∧
    (∀ s : Gap.State, Gap.Reach s →
      s.total_stake = Gap.effActive s 1 + Gap.effActive s 2) :=
  ⟨fun _ hs => (Deferred.inv_of_reach hs).total_eq,
   fun _ hs => (Gap.inv_of_reachB hs).total_eq⟩

/-- Witness for the amended C9 at the two initial ledgers. -/
theorem claim_C9_amended_total_stake_eq_witness :
    Deferred.init.total_stake = Deferred.init.stake 1 + Deferred.init.stake 2
      ∧ Gap.init.total_stake
        = Gap.effActive Gap.init 1 + Gap.effActive Gap.init 2 :=
  ⟨claim_C9_amended_total_stake_eq.1 Deferred.init Deferred.Reach.init,
   claim_C9_amended_total_stake_eq.2 Gap.init Gap.Reach.init⟩

/-- Claim C10: in Policy B, at every reachable state every account's
distribution_id is at most current_distribution_id and the history has an
entry for every epoch strictly below current_distribution_id, so the
history lookups of `__update_state` and `compute_reward` never raise
KeyError for an address the dicts hold: both calls return a value. -/
theorem claim_C10_policyB_history_safety :
    ∀ s : Gap.State, Gap.Reach s →
      (∀ a, s.distribution_id a ≤ s.current_distribution_id)
      ∧ (∀ k, k < s.current_distribution_id →
          (s.reward_per_token_history k).isSome)
      ∧ (∀ a, isAccount a →
          Gap.update_state s a = .ok (Gap.settled s a)
          ∧ ∃ r, Gap.compute_reward s a = .ok r) := by
  intro s hs
  have h := Gap.inv_of_reachB hs
  refine ⟨h.did_le, h.hist_dom, ?_⟩
  intro a ha
  refine ⟨Gap.update_state_ok_of_inv h ha, ?_⟩
  by_cases hd : s.distribution_id a = s.current_distribution_id
  · exact ⟨_, Gap.compute_reward_settled ha hd⟩
  · have hlt := lt_of_le_of_ne (h.did_le a) hd
    obtain ⟨hv, hhv⟩ := Option.isSome_iff_exists.mp (h.hist_dom _ hlt)
    exact ⟨_, Gap.compute_reward_stale ha hd hhv⟩

/-- Witness for C10 at the initial Policy B state and address 0x1. -/
theorem claim_C10_policyB_history_safety_witness :
    Gap.update_state Gap.init 1 = .ok (Gap.settled Gap.init 1)
      ∧ ∃ r, Gap.compute_reward Gap.init 1 = .ok r :=
  (claim_C10_policyB_history_safety Gap.init Gap.Reach.init).2.2 1 (Or.inl rfl)
